import Mathlib

/-!
Verification of the MomentumTracker momentum scoring and ranking pipeline.

This file is a shallow embedding of the core of the repository:
  * the momentum scorer (src/momentum_calculator.py, function momentum),
  * the per-symbol rolling-window engine loop and the assembly of the
    combined (symbol, date, momentum) table
    (src/momentum_calculator.py, function calculate_momentum_scores),
  * the per-date cross-sectional ranking
    (pandas rank(ascending=False, method="first") per date group),
  * the today view, the classifier (src/data_loader.py,
    function format_momentum_data), the top/bottom selection
    (src/momentum_calculator.py, function get_top_bottom_stocks), and
  * the result cache (load_from_cache / save_to_cache).

Python floats are modelled as real numbers.  Scalar arithmetic that the
source guards with try/except is modelled in an exception monad
(Except Unit) whose only failure is division by zero, the checked division
zdiv below; pandas column operations (pct_change, std), which never raise
and only propagate NaN, are modelled with total real arithmetic.
-/

set_option maxRecDepth 20000

/-- Checked scalar division: the model of a Python-level division that may
fail.  Failure is raised into the Except monad; the source catches it with
try/except blocks. -/
noncomputable def zdiv (a b : ℝ) : Except Unit ℝ :=
  if b = 0 then Except.error () else Except.ok (a / b)

/-- Daily percentage returns of a close series:
pd.Series(close_series).pct_change(), with the leading NaN dropped, so
entry j is (close_{j+1} - close_j) / close_j. -/
noncomputable def dailyReturns (l : List ℝ) : List ℝ :=
  (l.zip l.tail).map fun p => (p.2 - p.1) / p.1

/-- Arithmetic mean of a list of reals. -/
noncomputable def sampleMean (xs : List ℝ) : ℝ := xs.sum / xs.length

/-- Sample variance with ddof = 1, the pandas Series.std default. -/
noncomputable def sampleVar (xs : List ℝ) : ℝ :=
  ((xs.map fun x => (x - sampleMean xs) ^ 2).sum) / ((xs.length : ℝ) - 1)

/-- Sample standard deviation with ddof = 1 (pandas Series.std default). -/
noncomputable def sampleStd (xs : List ℝ) : ℝ := Real.sqrt (sampleVar xs)

/-- stdev_126 of the momentum function: the sample standard deviation of the
last 126 daily percentage returns of the window, i.e. of
pd.Series(close_series).pct_change().iloc[-126:].  (For windows of at least
252 closes, which is the only place the source uses it, the slice contains
no NaN entry: the leading NaN of pct_change sits at position 0 and the
slice starts at position length - 126 >= 126.) -/
noncomputable def sigma126 (l : List ℝ) : ℝ :=
  sampleStd ((dailyReturns l).drop ((dailyReturns l).length - 126))

/-- close_series.iloc[0], the first close of the window. -/
noncomputable def firstClose (l : List ℝ) : ℝ := l.getD 0 0

/-- close_series.iloc[-1], the last close of the window. -/
noncomputable def lastClose (l : List ℝ) : ℝ := l.getD (l.length - 1) 0

/-- close_series.iloc[-21], the 21st-from-last close of the window. -/
noncomputable def close21Back (l : List ℝ) : ℝ := l.getD (l.length - 21) 0

/-- long_term of the momentum function: full-window simple return. -/
noncomputable def longTermReturn (l : List ℝ) : ℝ :=
  (lastClose l - firstClose l) / firstClose l

/-- short_term of the momentum function: 21-day simple return. -/
noncomputable def shortTermReturn (l : List ℝ) : ℝ :=
  (lastClose l - close21Back l) / close21Back l

/-- Body of the try block of the momentum function: long-term return,
short-term return, and the normalized difference, with every scalar
division checked.  Any failure escapes to the enclosing handler. -/
noncomputable def momentumBody (l : List ℝ) : Except Unit ℝ := do
  let lt ← zdiv (lastClose l - firstClose l) (firstClose l)
  let st ← zdiv (lastClose l - close21Back l) (close21Back l)
  zdiv (lt - st) (sigma126 l)

/-- The momentum function of src/momentum_calculator.py.  Returns none for
NaN.  A window shorter than 252 closes scores NaN; a zero stdev_126 scores
NaN (the pd.isna(stdev_126) arm of the source's test cannot fire here,
since for a window of at least 252 closes the slice always holds 126
returns); any arithmetic failure inside the try block scores NaN via the
except handler. -/
noncomputable def momentum (l : List ℝ) : Option ℝ :=
  if l.length < 252 then none
  else if sigma126 l = 0 then none
  else
    match momentumBody l with
    | Except.ok v => some v
    | Except.error _ => none

/-- Claim C2.  For a window of at least 252 closes with nonzero first and
21st-from-last closes: if the sample standard deviation of the most recent
126 daily percentage returns is zero the score is undefined, and otherwise
the score is exactly (long_term_return - short_term_return) / sigma, with
long_term_return the full-window simple return and short_term_return the
21st-from-last simple return. -/
theorem momentum_primary_score (l : List ℝ) (h1 : 252 ≤ l.length)
    (h2 : firstClose l ≠ 0) (h3 : close21Back l ≠ 0) :
    (sigma126 l = 0 → momentum l = none) ∧
    (sigma126 l ≠ 0 →
      momentum l = some ((longTermReturn l - shortTermReturn l) / sigma126 l)) := by
  constructor
  · intro hσ
    simp [momentum, hσ]
  · intro hσ
    have hlen : ¬ l.length < 252 := by omega
    simp only [momentum, hlen, if_false, hσ, if_neg hσ, ite_false]
    have hbody : momentumBody l =
        Except.ok ((longTermReturn l - shortTermReturn l) / sigma126 l) := by
      simp only [momentumBody, zdiv, h2, h3, hσ, if_false, ite_false, if_neg,
        not_false_iff, longTermReturn, shortTermReturn]
      rfl
    simp [hbody, hlen]

/-- Witness for momentum_primary_score at the constant window of 252 ones. -/
theorem momentum_primary_score_witness :
    252 ≤ (List.replicate 252 (1 : ℝ)).length ∧
    firstClose (List.replicate 252 (1 : ℝ)) ≠ 0 ∧
    close21Back (List.replicate 252 (1 : ℝ)) ≠ 0 ∧
    ((sigma126 (List.replicate 252 (1 : ℝ)) = 0 →
        momentum (List.replicate 252 (1 : ℝ)) = none) ∧
      (sigma126 (List.replicate 252 (1 : ℝ)) ≠ 0 →
        momentum (List.replicate 252 (1 : ℝ)) =
          some ((longTermReturn (List.replicate 252 (1 : ℝ)) -
              shortTermReturn (List.replicate 252 (1 : ℝ))) /
            sigma126 (List.replicate 252 (1 : ℝ))))) := by
  refine ⟨by simp, ?_, ?_, ?_⟩
  · simp [firstClose]
  · simp [close21Back]
  · exact momentum_primary_score (List.replicate 252 (1 : ℝ)) (by simp)
      (by simp [firstClose]) (by simp [close21Back])

/-- Simple-return score of the fallback branch at evaluation index i:
window = symbol_data.iloc[i - w : i + 1], value =
(window.iloc[-1] - window.iloc[0]) / window.iloc[0], with the division
checked (a failure escapes to the per-symbol handler of the engine loop). -/
noncomputable def fallbackAt (closes : List ℝ) (w i : ℕ) : Except Unit ℝ :=
  let win := (closes.drop (i - w)).take (w + 1)
  zdiv (win.getD (win.length - 1) 0 - win.getD 0 0) (win.getD 0 0)

/-- Monadic construction of a list from index computations, aborting on the
first failure: the model of the Python loop that fills one symbol's
momentum series, inside the engine's per-symbol try block. -/
noncomputable def exceptMapList (f : ℕ → Except Unit (Option ℝ)) :
    List ℕ → Except Unit (List (Option ℝ))
  | [] => Except.ok []
  | i :: rest =>
    match f i with
    | Except.error e => Except.error e
    | Except.ok v =>
      match exceptMapList f rest with
      | Except.error e => Except.error e
      | Except.ok vs => Except.ok (v :: vs)

/-- One symbol's momentum series, indexed like its close series
(calculate_momentum_scores, the per-symbol branch).  With at least 252
observations, index i of the series holds momentum(iloc[i-252 : i+1]) for
i >= 252 and NaN below (the momentum call catches its own arithmetic
failures, so this branch cannot fail).  With at least 126 observations the
fallback branch evaluates the simple return over windows of size
min(126, length - 1); a failure there aborts the whole symbol.  With fewer
observations the initialized all-NaN series is left untouched. -/
noncomputable def symbolSeries (closes : List ℝ) : Except Unit (List (Option ℝ)) :=
  if 252 ≤ closes.length then
    Except.ok ((List.range closes.length).map fun i =>
      if 252 ≤ i then momentum ((closes.drop (i - 252)).take 253) else none)
  else if 126 ≤ closes.length then
    exceptMapList
      (fun i =>
        if min 126 (closes.length - 1) ≤ i then
          (fallbackAt closes (min 126 (closes.length - 1)) i).map Option.some
        else Except.ok none)
      (List.range closes.length)
  else Except.ok (List.replicate closes.length none)

/-- The engine's symbol loop (calculate_momentum_scores): each symbol's
series is computed inside a try block; on an exception the symbol is
skipped (nothing is appended to momentum_values) and the loop moves on to
the next symbol. -/
noncomputable def processSymbols :
    List (String × List ℝ) → List (String × List (Option ℝ))
  | [] => []
  | s :: rest =>
    match symbolSeries s.2 with
    | Except.ok series => (s.1, series) :: processSymbols rest
    | Except.error _ => processSymbols rest

/-- Rows one symbol contributes to the combined table
(prices.join(df_momentum, how="left")): its price rows paired positionally
with its momentum series; a symbol whose computation faulted has no
momentum frame, so the left join leaves its momentum column NaN. -/
noncomputable def rowsForSymbol (s : String × List (ℕ × ℝ)) :
    List (String × ℕ × Option ℝ) :=
  match symbolSeries (s.2.map Prod.snd) with
  | Except.ok series => (s.2.zip series).map fun p => (s.1, p.1.1, p.2)
  | Except.error _ => s.2.map fun q => (s.1, q.1, none)

/-- The combined long-form table of the engine: symbols sorted by name
(sorted(set(...)) plus sort_index on the (symbol, date) MultiIndex),
symbols with fewer than min_observations = 126 rows dropped
(valid_symbols), and per-symbol rows appended symbol-major. -/
noncomputable def engineCombined (input : List (String × List (ℕ × ℝ))) :
    List (String × ℕ × Option ℝ) :=
  ((input.mergeSort fun a b => a.1 ≤ b.1).filter fun s =>
    126 ≤ s.2.length).flatMap rowsForSymbol

/-- First-seen deduplication, the semantics of pandas Index.unique():
unique values in order of first appearance. -/
def dedupGo : List ℕ → List ℕ → List ℕ
  | [], _ => []
  | d :: rest, seen =>
    if d ∈ seen then dedupGo rest seen else d :: dedupGo rest (d :: seen)

/-- Order-of-appearance unique values of a list of dates. -/
def dedupKeepFirst (l : List ℕ) : List ℕ := dedupGo l []

/-- valid_dates of the engine:
combined[combined["momentum"].notna()].index.get_level_values("date").unique(),
that is, the dates of the rows with defined momentum, in order of first
appearance over the (symbol, date)-sorted combined table. -/
noncomputable def validDatesOf (rows : List (String × ℕ × Option ℝ)) : List ℕ :=
  dedupKeepFirst ((rows.filter fun r => r.2.2.isSome).map fun r => r.2.1)

/-- last_date of the engine: valid_dates[-1], the last element of the
first-seen unique date list. -/
noncomputable def lastDateOf (rows : List (String × ℕ × Option ℝ)) : Option ℕ :=
  (validDatesOf rows).getLast?

/-- Defined momentum values of the combined table on one date, in table
order (symbol-ascending, the order pandas groupby presents a date group). -/
noncomputable def momentaOn (rows : List (String × ℕ × Option ℝ)) (d : ℕ) :
    List ℝ :=
  (rows.filter fun r => r.2.1 = d).filterMap fun r => r.2.2

/-- Strict "ranked ahead" relation of rank(ascending=False, method="first"):
entry j is ranked strictly ahead of entry i when its value is larger, or
when the values are equal and j appears earlier. -/
def rankAhead {α : Type} [LinearOrder α] (l : List α) (j i : Fin l.length) :
    Prop :=
  l.get i < l.get j ∨ (l.get j = l.get i ∧ (j : ℕ) < (i : ℕ))

instance {α : Type} [LinearOrder α] (l : List α) (j i : Fin l.length) :
    Decidable (rankAhead l j i) := by
  unfold rankAhead; infer_instance

/-- factor_rank of the entry at position i of a date group's defined
momentum values: one plus the number of entries ranked ahead of it.  This
is pandas rank(ascending=False, method="first"): rank by value descending,
ties broken by position of first appearance. -/
def rankOf {α : Type} [LinearOrder α] (l : List α) (i : Fin l.length) : ℕ :=
  1 + (Finset.univ.filter fun j => rankAhead l j i).card

/-- All factor_rank values of a date group's defined momentum values, in
group order. -/
def rankList {α : Type} [LinearOrder α] (l : List α) : List ℕ :=
  (List.finRange l.length).map fun i => rankOf l i

/-- factor_rank values assigned on one date of the combined table. -/
noncomputable def ranksOn (rows : List (String × ℕ × Option ℝ)) (d : ℕ) :
    List ℕ :=
  rankList (momentaOn rows d)

/-- One row of the today view's input: a combined-table row restricted to
last_date, before dropna.  Every column that can hold NaN is an Option. -/
structure CRow where
  sym : String
  date : ℕ
  close : Option ℝ
  momentum : Option ℝ
  frank : Option ℕ

/-- Boolean comparison of today rows by factor_rank, the sort key of
today_data.sort_values("factor_rank"). -/
def rankLe (a b : CRow) : Bool := a.frank.getD 0 ≤ b.frank.getD 0

/-- today_sorted of the engine:
combined.xs(last_date, level="date").dropna().sort_values("factor_rank").
Rows not on last_date are excluded by the cross-section; dropna removes
every row with any NaN field; the remainder is sorted ascending by
factor_rank (sort_values is modelled by mergeSort, a deterministic
comparison sort). -/
def todaySorted (rows : List CRow) (last : ℕ) : List CRow :=
  ((rows.filter fun r =>
    r.date = last && r.close.isSome && r.momentum.isSome && r.frank.isSome
    ).mergeSort rankLe)

/-- Classification of format_momentum_data (src/data_loader.py).  K is the
number of today rows, rank a factor_rank.  The source initializes every
row to Neutral and then applies four masked assignments in order:
Strong Buy (rank <= top), Buy (top < rank <= 2 top), Strong Sell
(rank >= bottom), Sell (bottom - top <= rank < bottom); a later assignment
overwrites an earlier one, so the function returns the last matching
label.  int(K * 0.1) and int(K * 0.9) are modelled as the exact floors
K / 10 and 9 K / 10, which agree with the float computation at the
universe size K = 100 treated by the claims. -/
def classify (K rank : ℕ) : String :=
  let top := K / 10
  let bottom := K * 9 / 10
  if bottom - top ≤ rank ∧ rank < bottom then "Sell"
  else if bottom ≤ rank then "Strong Sell"
  else if top < rank ∧ rank ≤ 2 * top then "Buy"
  else if rank ≤ top then "Strong Buy"
  else "Neutral"

/-- get_top_bottom_stocks (src/momentum_calculator.py): top_N =
min(n, len(today_sorted) // 2); the first top_N rows are tagged side = +1
(stocks_to_buy) and the last top_N rows side = -1 (stocks_to_short), and
the two slices are concatenated. -/
def topBottomStocks (today : List CRow) (n : ℕ) : List (CRow × Int) :=
  let topN := min n (today.length / 2)
  (today.take topN).map (fun r => (r, (1 : Int))) ++
    ((today.drop (today.length - topN)).map fun r => (r, (-1 : Int)))

/-- The cache directory: a store of entries (key, payload, mtime in epoch
seconds).  save_to_cache writes the pickle file for the key, replacing any
previous file; the entry records its modification time. -/
def saveToCache {α : Type} (store : List (String × α × ℚ)) (key : String)
    (data : α) (now : ℚ) : List (String × α × ℚ) :=
  (key, data, now) :: store.filter fun e => e.1 ≠ key

/-- load_from_cache: a miss when no file exists for the key; otherwise the
age (now - mtime) / (60 * 60 * 24) in days is compared against
CACHE_VALID_DAYS = 1, and an entry older than that is treated as a miss
without being deleted.  (A failed unpickling is also treated as a miss in
the source; stored payloads are values here, so that branch cannot fire.) -/
def loadFromCache {α : Type} (store : List (String × α × ℚ)) (key : String)
    (now : ℚ) : Option α :=
  match store.find? (fun e => e.1 = key) with
  | none => none
  | some e => if (now - e.2.2) / (60 * 60 * 24) > 1 then none else some e.2.1

/-- Counterexample to claim C1 as stated: at K = 100, rank 90 is classified
"Strong Sell" by the code (rank >= bottom_threshold = 90), not "Sell" as
the claimed ranges 81-90 -> Sell, 91-100 -> Strong Sell would require. -/
theorem classify_rank90_cex :
    classify 100 90 = "Strong Sell" ∧ classify 100 90 ≠ "Sell" := by
  constructor
  · rfl
  · decide

/-- Claim C1, amended.  For a universe of K = 100 ranked observations the
classifier assigns "Strong Buy" to ranks 1-10, "Buy" to ranks 11-20,
"Strong Sell" to ranks 90-100, "Sell" to ranks 80-89 and "Neutral" to
ranks 21-79, using top_threshold = 10 and bottom_threshold = 90, with the
Strong Sell / Sell assignments applied after Strong Buy / Buy. -/
theorem classify_boundaries_amended :
    ∀ rank < 101, 1 ≤ rank →
      classify 100 rank =
        (if rank ≤ 10 then "Strong Buy"
         else if rank ≤ 20 then "Buy"
         else if 90 ≤ rank then "Strong Sell"
         else if 80 ≤ rank then "Sell"
         else "Neutral") := by
  decide

/-- Witness for classify_boundaries_amended at rank 85 (a "Sell" rank). -/
theorem classify_boundaries_amended_witness :
    85 < 101 ∧ 1 ≤ 85 ∧
      classify 100 85 =
        (if 85 ≤ 10 then "Strong Buy"
         else if 85 ≤ 20 then "Buy"
         else if 90 ≤ 85 then "Strong Sell"
         else if 80 ≤ 85 then "Sell"
         else "Neutral") :=
  ⟨by decide, by decide, classify_boundaries_amended 85 (by decide) (by decide)⟩

/-- Claim C6.  Writing a payload and immediately reading the same key
returns the identical payload, and reading an entry whose age exceeds the
one-day validity window is a miss even though the entry is still present
in the store. -/
theorem cache_roundtrip_expiry {α : Type} (store : List (String × α × ℚ))
    (key : String) (p : α) (t : ℚ) :
    loadFromCache (saveToCache store key p t) key t = some p ∧
    (∀ (other : List (String × α × ℚ)) (now : ℚ),
      other.find? (fun e => e.1 = key) = some (key, p, t) →
      (now - t) / (60 * 60 * 24) > 1 →
      loadFromCache other key now = none ∧ (key, p, t) ∈ other) := by
  constructor
  · have hage : ¬ ((t - t) / (60 * 60 * 24) > (1 : ℚ)) := by
      simp
    simp [loadFromCache, saveToCache, hage]
  · intro other now hfind hage
    refine ⟨?_, List.mem_of_find?_eq_some hfind⟩
    simp [loadFromCache, hfind, hage]

/-- Witness for cache_roundtrip_expiry: a one-entry store written at epoch
second 0 and read 100000 seconds (more than a day) later. -/
theorem cache_roundtrip_expiry_witness :
    loadFromCache (saveToCache ([] : List (String × ℕ × ℚ)) "momentum_sp500_a_b" 42 0)
        "momentum_sp500_a_b" 0 = some 42 ∧
    loadFromCache [("momentum_sp500_a_b", 42, (0 : ℚ))] "momentum_sp500_a_b" 100000 = none ∧
    ("momentum_sp500_a_b", 42, (0 : ℚ)) ∈ [("momentum_sp500_a_b", 42, (0 : ℚ))] := by
  have h := cache_roundtrip_expiry ([] : List (String × ℕ × ℚ))
    "momentum_sp500_a_b" 42 0
  refine ⟨h.1, ?_, ?_⟩
  · exact (h.2 [("momentum_sp500_a_b", 42, (0 : ℚ))] 100000 (by decide) (by norm_num)).1
  · exact (h.2 [("momentum_sp500_a_b", 42, (0 : ℚ))] 100000 (by decide) (by norm_num)).2

/-- Claim C8.  The paired trade-candidate selection clamps the requested n
to min(n, K / 2) with K the number of today rows, returns the first
clamped-n rows tagged side +1 followed by the last clamped-n rows tagged
side -1, and the union of the two slices is a sublist of the today view,
so the slices never overlap, also when n exceeds K / 2. -/
theorem top_bottom_clamped (l : List CRow) (n : ℕ) :
    topBottomStocks l n =
      (l.take (min n (l.length / 2))).map (fun r => (r, (1 : Int))) ++
        ((l.drop (l.length - min n (l.length / 2))).map fun r => (r, (-1 : Int))) ∧
    ((topBottomStocks l n).map Prod.fst).Sublist l := by
  refine ⟨rfl, ?_⟩
  have hm : min n (l.length / 2) ≤ l.length / 2 := min_le_right _ _
  have hsplit : l.length - min n (l.length / 2) =
      min n (l.length / 2) + (l.length - 2 * min n (l.length / 2)) := by
    omega
  have hmap : ((topBottomStocks l n).map Prod.fst) =
      l.take (min n (l.length / 2)) ++ l.drop (l.length - min n (l.length / 2)) := by
    simp [topBottomStocks, List.map_append, List.map_map, Function.comp_def]
  have h1 : List.Sublist
      ((l.drop (min n (l.length / 2))).drop (l.length - 2 * min n (l.length / 2)))
      (l.drop (min n (l.length / 2))) := List.drop_sublist _ _
  have h2 := h1.append_left (l.take (min n (l.length / 2)))
  rw [List.take_append_drop] at h2
  rw [hmap, hsplit, ← List.drop_drop]
  exact h2

/-- Applying top_bottom_clamped at a two-row today view with n = 5 larger
than K / 2 = 1. -/
theorem top_bottom_clamped_witness :
    topBottomStocks [⟨"A", 3, some 1, some 2, some 1⟩, ⟨"B", 3, some 1, some 0, some 2⟩] 5 =
      (([⟨"A", 3, some 1, some 2, some 1⟩, ⟨"B", 3, some 1, some 0, some 2⟩] : List CRow).take
          (min 5 (2 / 2))).map (fun r => (r, (1 : Int))) ++
        ((([⟨"A", 3, some 1, some 2, some 1⟩, ⟨"B", 3, some 1, some 0, some 2⟩] : List CRow).drop
          (2 - min 5 (2 / 2))).map fun r => (r, (-1 : Int))) ∧
    ((topBottomStocks [⟨"A", 3, some 1, some 2, some 1⟩, ⟨"B", 3, some 1, some 0, some 2⟩] 5).map
      Prod.fst).Sublist [⟨"A", 3, some 1, some 2, some 1⟩, ⟨"B", 3, some 1, some 0, some 2⟩] :=
  top_bottom_clamped [⟨"A", 3, some 1, some 2, some 1⟩, ⟨"B", 3, some 1, some 0, some 2⟩] 5

/-- Claim C10.  Every row of the today view carries the requested date and
has close, momentum and factor_rank all defined (dropna removed every row
with an undefined field), and the view is sorted ascending by factor_rank. -/
theorem today_view_rows (rows : List CRow) (last : ℕ) :
    (∀ r ∈ todaySorted rows last,
      r.date = last ∧ r.close.isSome ∧ r.momentum.isSome ∧ r.frank.isSome) ∧
    (todaySorted rows last).Pairwise fun a b => a.frank.getD 0 ≤ b.frank.getD 0 := by
  constructor
  · intro r hr
    have hmem : r ∈ rows.filter fun r =>
        r.date = last && r.close.isSome && r.momentum.isSome && r.frank.isSome := by
      exact ((List.mergeSort_perm _ _).mem_iff).mp hr
    have hprop := List.of_mem_filter hmem
    simp only [Bool.and_eq_true, decide_eq_true_eq] at hprop
    exact ⟨hprop.1.1.1, hprop.1.1.2, hprop.1.2, hprop.2⟩
  · have hs := List.sorted_mergeSort
      (fun a b c (hab : rankLe a b) (hbc : rankLe b c) => by
        simp only [rankLe, decide_eq_true_eq] at hab hbc ⊢
        omega)
      (fun a b => by
        simp only [rankLe, Bool.or_eq_true, decide_eq_true_eq]
        omega)
      (rows.filter fun r =>
        r.date = last && r.close.isSome && r.momentum.isSome && r.frank.isSome)
    refine hs.imp ?_
    intro a b hab
    simpa [rankLe] using hab

/-- Applying today_view_rows at a small mixed row set. -/
theorem today_view_rows_witness :
    (∀ r ∈ todaySorted
        [⟨"A", 7, some 1, some 2, some 2⟩, ⟨"B", 7, some 1, none, none⟩,
         ⟨"C", 7, some 1, some 3, some 1⟩, ⟨"D", 6, some 1, some 5, some 1⟩] 7,
      r.date = 7 ∧ r.close.isSome ∧ r.momentum.isSome ∧ r.frank.isSome) ∧
    (todaySorted
        [⟨"A", 7, some 1, some 2, some 2⟩, ⟨"B", 7, some 1, none, none⟩,
         ⟨"C", 7, some 1, some 3, some 1⟩, ⟨"D", 6, some 1, some 5, some 1⟩] 7).Pairwise
      fun a b => a.frank.getD 0 ≤ b.frank.getD 0 :=
  today_view_rows
    [⟨"A", 7, some 1, some 2, some 2⟩, ⟨"B", 7, some 1, none, none⟩,
     ⟨"C", 7, some 1, some 3, some 1⟩, ⟨"D", 6, some 1, some 5, some 1⟩] 7

theorem rankAhead_irrefl {α : Type} [LinearOrder α] (l : List α)
    (i : Fin l.length) : ¬ rankAhead l i i := by
  simp [rankAhead]

theorem rankAhead_trans {α : Type} [LinearOrder α] (l : List α)
    {i j k : Fin l.length} (hij : rankAhead l i j) (hjk : rankAhead l j k) :
    rankAhead l i k := by
  rcases hij with hij | ⟨hije, hijl⟩
  · rcases hjk with hjk | ⟨hjke, hjkl⟩
    · exact Or.inl (lt_trans hjk hij)
    · exact Or.inl (hjke ▸ hij)
  · rcases hjk with hjk | ⟨hjke, hjkl⟩
    · exact Or.inl (hije ▸ hjk)
    · exact Or.inr ⟨hije.trans hjke, lt_trans hijl hjkl⟩

theorem rankAhead_total {α : Type} [LinearOrder α] (l : List α)
    {i j : Fin l.length} (h : i ≠ j) : rankAhead l i j ∨ rankAhead l j i := by
  rcases lt_trichotomy (l.get i) (l.get j) with hv | hv | hv
  · exact Or.inr (Or.inl hv)
  · rcases Nat.lt_or_ge (i : ℕ) (j : ℕ) with hn | hn
    · exact Or.inl (Or.inr ⟨hv, hn⟩)
    · have hn2 : (j : ℕ) < (i : ℕ) := by
        rcases Nat.lt_or_ge (j : ℕ) (i : ℕ) with h2 | h2
        · exact h2
        · exact absurd (Fin.ext (Nat.le_antisymm h2 hn)) h
      exact Or.inr (Or.inr ⟨hv.symm, hn2⟩)
  · exact Or.inl (Or.inl hv)

theorem rankOf_lt_of_ahead {α : Type} [LinearOrder α] (l : List α)
    {i j : Fin l.length} (h : rankAhead l i j) : rankOf l i < rankOf l j := by
  unfold rankOf
  have hss : (Finset.univ.filter fun k => rankAhead l k i) ⊂
      (Finset.univ.filter fun k => rankAhead l k j) := by
    constructor
    · intro x hx
      rcases Finset.mem_filter.mp hx with ⟨_, hxa⟩
      exact Finset.mem_filter.mpr ⟨Finset.mem_univ _, rankAhead_trans l hxa h⟩
    · intro hsub
      have hi : i ∈ Finset.univ.filter fun k => rankAhead l k j :=
        Finset.mem_filter.mpr ⟨Finset.mem_univ _, h⟩
      have := Finset.mem_filter.mp (hsub hi)
      exact rankAhead_irrefl l i this.2
  have := Finset.card_lt_card hss
  omega

theorem rankOf_pos_le {α : Type} [LinearOrder α] (l : List α)
    (i : Fin l.length) : 1 ≤ rankOf l i ∧ rankOf l i ≤ l.length := by
  constructor
  · unfold rankOf; omega
  · unfold rankOf
    have hsub : (Finset.univ.filter fun k => rankAhead l k i) ⊆
        Finset.univ.erase i := by
      intro x hx
      rcases Finset.mem_filter.mp hx with ⟨_, hxa⟩
      refine Finset.mem_erase.mpr ⟨?_, Finset.mem_univ _⟩
      intro hxe
      exact rankAhead_irrefl l i (hxe ▸ hxa)
    have hcard := Finset.card_le_card hsub
    have herase : (Finset.univ.erase i).card = l.length - 1 := by
      rw [Finset.card_erase_of_mem (Finset.mem_univ _)]
      simp
    have hpos : 0 < l.length := i.pos
    omega

theorem rankOf_injective {α : Type} [LinearOrder α] (l : List α) :
    Function.Injective (fun i : Fin l.length => rankOf l i) := by
  intro i j hij
  by_contra hne
  rcases rankAhead_total l hne with h | h
  · exact absurd hij (Nat.ne_of_lt (rankOf_lt_of_ahead l h))
  · exact absurd hij.symm (Nat.ne_of_lt (rankOf_lt_of_ahead l h))

theorem rankList_nodup {α : Type} [LinearOrder α] (l : List α) :
    (rankList l).Nodup :=
  (List.nodup_finRange l.length).map (rankOf_injective l)

theorem rankList_perm {α : Type} [LinearOrder α] (l : List α) :
    (rankList l).Perm (List.range' 1 l.length) := by
  apply List.perm_of_nodup_nodup_toFinset_eq (rankList_nodup l)
    (List.nodup_range' 1 l.length)
  have hsub : (rankList l).toFinset ⊆ (List.range' 1 l.length).toFinset := by
    intro r hr
    rw [List.mem_toFinset] at hr ⊢
    rcases List.mem_map.mp hr with ⟨i, _, hieq⟩
    rcases rankOf_pos_le l i with ⟨h1, h2⟩
    rw [List.mem_range'_1]
    omega
  apply Finset.eq_of_subset_of_card_le hsub
  rw [List.toFinset_card_of_nodup (rankList_nodup l),
    List.toFinset_card_of_nodup (List.nodup_range' 1 l.length)]
  simp [rankList]

/-- Claim C4.  For any date of the combined table, the factor_rank values
assigned to the observations with defined momentum on that date are
exactly the ranks of rank(ascending=False, method="first") over that
date's group, they form a permutation of 1..K where K is the number of
defined momentum observations on the date, a strictly larger momentum
always receives a strictly smaller rank, and ties are broken by position
in the group (first seen ranked ahead), never by value. -/
theorem factor_rank_permutation (rows : List (String × ℕ × Option ℝ)) (d : ℕ) :
    ranksOn rows d =
      (List.finRange (momentaOn rows d).length).map (fun i => rankOf (momentaOn rows d) i) ∧
    (ranksOn rows d).Perm (List.range' 1 (momentaOn rows d).length) ∧
    (∀ i j : Fin (momentaOn rows d).length,
      (momentaOn rows d).get j < (momentaOn rows d).get i →
      rankOf (momentaOn rows d) i < rankOf (momentaOn rows d) j) ∧
    (∀ i j : Fin (momentaOn rows d).length,
      (momentaOn rows d).get i = (momentaOn rows d).get j → (i : ℕ) < (j : ℕ) →
      rankOf (momentaOn rows d) i < rankOf (momentaOn rows d) j) := by
  refine ⟨rfl, rankList_perm _, ?_, ?_⟩
  · intro i j hv
    exact rankOf_lt_of_ahead _ (Or.inl hv)
  · intro i j hv hn
    exact rankOf_lt_of_ahead _ (Or.inr ⟨hv, hn⟩)

/-- Applying factor_rank_permutation at a three-row date group holding a
tie. -/
theorem factor_rank_permutation_witness :
    ranksOn [("A", 4, some (2 : ℝ)), ("B", 4, some 2), ("C", 4, some 3)] 4 =
      (List.finRange (momentaOn [("A", 4, some (2 : ℝ)), ("B", 4, some 2), ("C", 4, some 3)] 4).length).map
        (fun i => rankOf (momentaOn [("A", 4, some (2 : ℝ)), ("B", 4, some 2), ("C", 4, some 3)] 4) i) ∧
    (ranksOn [("A", 4, some (2 : ℝ)), ("B", 4, some 2), ("C", 4, some 3)] 4).Perm
      (List.range' 1 (momentaOn [("A", 4, some (2 : ℝ)), ("B", 4, some 2), ("C", 4, some 3)] 4).length) ∧
    (∀ i j : Fin (momentaOn [("A", 4, some (2 : ℝ)), ("B", 4, some 2), ("C", 4, some 3)] 4).length,
      (momentaOn [("A", 4, some (2 : ℝ)), ("B", 4, some 2), ("C", 4, some 3)] 4).get j <
        (momentaOn [("A", 4, some (2 : ℝ)), ("B", 4, some 2), ("C", 4, some 3)] 4).get i →
      rankOf (momentaOn [("A", 4, some (2 : ℝ)), ("B", 4, some 2), ("C", 4, some 3)] 4) i <
        rankOf (momentaOn [("A", 4, some (2 : ℝ)), ("B", 4, some 2), ("C", 4, some 3)] 4) j) ∧
    (∀ i j : Fin (momentaOn [("A", 4, some (2 : ℝ)), ("B", 4, some 2), ("C", 4, some 3)] 4).length,
      (momentaOn [("A", 4, some (2 : ℝ)), ("B", 4, some 2), ("C", 4, some 3)] 4).get i =
        (momentaOn [("A", 4, some (2 : ℝ)), ("B", 4, some 2), ("C", 4, some 3)] 4).get j →
      (i : ℕ) < (j : ℕ) →
      rankOf (momentaOn [("A", 4, some (2 : ℝ)), ("B", 4, some 2), ("C", 4, some 3)] 4) i <
        rankOf (momentaOn [("A", 4, some (2 : ℝ)), ("B", 4, some 2), ("C", 4, some 3)] 4) j) :=
  factor_rank_permutation [("A", 4, some (2 : ℝ)), ("B", 4, some 2), ("C", 4, some 3)] 4

theorem exceptMapList_ok (f : ℕ → Except Unit (Option ℝ)) (g : ℕ → Option ℝ) :
    ∀ is : List ℕ, (∀ i ∈ is, f i = Except.ok (g i)) →
      exceptMapList f is = Except.ok (is.map g)
  | [], _ => rfl
  | i :: rest, h => by
    have hi : f i = Except.ok (g i) := h i (List.mem_cons_self i rest)
    have hrest := exceptMapList_ok f g rest fun j hj => h j (List.mem_cons_of_mem _ hj)
    simp [exceptMapList, hi, hrest]

theorem exceptMapList_error (f : ℕ → Except Unit (Option ℝ)) :
    ∀ (is : List ℕ) (i : ℕ), i ∈ is → f i = Except.error () →
      exceptMapList f is = Except.error ()
  | [], i, hi, _ => absurd hi (List.not_mem_nil i)
  | j :: rest, i, hi, he => by
    rcases List.mem_cons.mp hi with hj | hj
    · subst hj
      simp [exceptMapList, he]
    · have hrest := exceptMapList_error f rest i hj he
      cases hf : f j with
      | error e => cases e; simp [exceptMapList, hf]
      | ok v => simp [exceptMapList, hf, hrest]

theorem getD_take_drop (l : List ℝ) (m k j : ℕ) (hjk : j < k) :
    ((l.drop m).take k).getD j 0 = l.getD (m + j) 0 := by
  simp [List.getElem?_take_of_lt hjk, List.getElem?_drop]

theorem getD_mem_of_lt (l : List ℝ) (idx : ℕ) (h : idx < l.length) :
    l.getD idx 0 ∈ l := by
  rw [List.getD_eq_getElem?_getD, List.getElem?_eq_getElem h]
  exact List.getElem_mem h

/-- Claim C9.  In primary mode the engine evaluates exactly the windows
symbol_data.iloc[i-252 : i+1] for evaluation indices 252 <= i < length --
windows of 253 closes -- and leaves every index below 252 NaN; hence a
symbol with exactly 252 observations (one full 252-close window in the
spec's sense) produces an all-NaN series, no momentum value at any date:
at least 253 observations are needed before any primary-mode value. -/
theorem primary_window_253 (closes : List ℝ) :
    (252 ≤ closes.length →
      symbolSeries closes =
        Except.ok ((List.range closes.length).map fun i =>
          if 252 ≤ i then momentum ((closes.drop (i - 252)).take 253) else none) ∧
      ∀ i : ℕ, 252 ≤ i → i < closes.length →
        ((closes.drop (i - 252)).take 253).length = 253) ∧
    (closes.length = 252 → symbolSeries closes = Except.ok (List.replicate 252 none)) := by
  constructor
  · intro h
    constructor
    · simp [symbolSeries, h]
    · intro i h1 h2
      simp only [List.length_take, List.length_drop]
      omega
  · intro h
    have h252 : (252 : ℕ) ≤ closes.length := by omega
    simp only [symbolSeries, h252, if_true, if_pos h252, h]
    congr 1

/-- Applying primary_window_253 at 253 and at exactly 252 observations. -/
theorem primary_window_253_witness :
    (symbolSeries (List.replicate 253 (1 : ℝ)) =
        Except.ok ((List.range (List.replicate 253 (1 : ℝ)).length).map fun i =>
          if 252 ≤ i then
            momentum (((List.replicate 253 (1 : ℝ)).drop (i - 252)).take 253)
          else none) ∧
      ∀ i : ℕ, 252 ≤ i → i < (List.replicate 253 (1 : ℝ)).length →
        (((List.replicate 253 (1 : ℝ)).drop (i - 252)).take 253).length = 253) ∧
    symbolSeries (List.replicate 252 (1 : ℝ)) = Except.ok (List.replicate 252 none) :=
  ⟨(primary_window_253 (List.replicate 253 (1 : ℝ))).1 (by simp),
    (primary_window_253 (List.replicate 252 (1 : ℝ))).2 (by simp)⟩

theorem fallbackAt_ok (closes : List ℝ) (i : ℕ) (hw : min 126 (closes.length - 1) ≤ i)
    (hi : i < closes.length) (h0 : ∀ x ∈ closes, x ≠ 0) :
    fallbackAt closes (min 126 (closes.length - 1)) i =
      Except.ok
        ((closes.getD i 0 - closes.getD (i - min 126 (closes.length - 1)) 0) /
          closes.getD (i - min 126 (closes.length - 1)) 0) := by
  have hwlen :
      ((closes.drop (i - min 126 (closes.length - 1))).take
        (min 126 (closes.length - 1) + 1)).length = min 126 (closes.length - 1) + 1 := by
    simp only [List.length_take, List.length_drop]
    omega
  have hlast :
      ((closes.drop (i - min 126 (closes.length - 1))).take
          (min 126 (closes.length - 1) + 1)).getD
        (min 126 (closes.length - 1)) 0 = closes.getD i 0 := by
    rw [getD_take_drop _ _ _ _ (by omega)]
    congr 1
    omega
  have hfirst :
      ((closes.drop (i - min 126 (closes.length - 1))).take
          (min 126 (closes.length - 1) + 1)).getD 0 0 =
        closes.getD (i - min 126 (closes.length - 1)) 0 := by
    rw [getD_take_drop _ _ _ _ (by omega)]
    congr 1
  have hne : closes.getD (i - min 126 (closes.length - 1)) 0 ≠ 0 :=
    h0 _ (getD_mem_of_lt closes _ (by omega))
  simp only [fallbackAt]
  rw [hwlen]
  rw [Nat.add_sub_cancel]
  rw [hlast]
  rw [hfirst]
  rw [zdiv]
  rw [if_neg hne]

/-- Claim C5.  A symbol whose full history has at least 126 but fewer than
252 observations is scored in fallback mode: with w = min(126, length - 1),
every evaluation index i >= w receives the simple return
(close_i - close_(i-w)) / close_(i-w) -- not the volatility-normalized
primary score -- and indices below w stay NaN.  A symbol with fewer than
126 observations is excluded by the engine's valid_symbols filter and
contributes no row at all: every combined-table row names a symbol with at
least 126 observations (symbol names taken distinct, as they are in the
input table). -/
theorem fallback_mode_score :
    (∀ closes : List ℝ, 126 ≤ closes.length → closes.length < 252 →
      (∀ x ∈ closes, x ≠ 0) →
      symbolSeries closes =
        Except.ok ((List.range closes.length).map fun i =>
          if min 126 (closes.length - 1) ≤ i then
            some ((closes.getD i 0 - closes.getD (i - min 126 (closes.length - 1)) 0) /
              closes.getD (i - min 126 (closes.length - 1)) 0)
          else none)) ∧
    (∀ (input : List (String × List (ℕ × ℝ))) (s : String × List (ℕ × ℝ)),
      (input.map Prod.fst).Nodup → s ∈ input → s.2.length < 126 →
      ∀ r ∈ engineCombined input, r.1 ≠ s.1) := by
  constructor
  · intro closes h1 h2 h0
    have hn252 : ¬ 252 ≤ closes.length := by omega
    simp only [symbolSeries, hn252, if_false, h1, if_true, if_pos h1, ite_false]
    apply exceptMapList_ok
    intro i hi
    have hilt : i < closes.length := List.mem_range.mp hi
    by_cases hw : min 126 (closes.length - 1) ≤ i
    · rw [if_pos hw, if_pos hw, fallbackAt_ok closes i hw hilt h0]
      rfl
    · rw [if_neg hw, if_neg hw]
  · intro input s hnd hs hshort r hr hname
    rcases List.mem_flatMap.mp hr with ⟨t, ht, hrt⟩
    rcases List.mem_filter.mp ht with ⟨htsort, htlen⟩
    have htmem : t ∈ input := (List.mergeSort_perm input _).mem_iff.mp htsort
    have htlen2 : 126 ≤ t.2.length := by simpa using htlen
    have hrfst : r.1 = t.1 := by
      unfold rowsForSymbol at hrt
      rcases hmatch : symbolSeries (t.2.map Prod.snd) with e | series
      · rw [hmatch] at hrt
        rcases List.mem_map.mp hrt with ⟨q, _, rfl⟩
        rfl
      · rw [hmatch] at hrt
        rcases List.mem_map.mp hrt with ⟨q, _, rfl⟩
        rfl
    have hts : t = s :=
      List.inj_on_of_nodup_map hnd htmem hs (by rw [← hrfst, hname])
    rw [hts] at htlen2
    omega

/-- Applying fallback_mode_score at a 126-observation constant history and
at a one-observation symbol inside a singleton universe. -/
theorem fallback_mode_score_witness :
    symbolSeries (List.replicate 126 (1 : ℝ)) =
      Except.ok ((List.range (List.replicate 126 (1 : ℝ)).length).map fun i =>
        if min 126 ((List.replicate 126 (1 : ℝ)).length - 1) ≤ i then
          some (((List.replicate 126 (1 : ℝ)).getD i 0 -
              (List.replicate 126 (1 : ℝ)).getD
                (i - min 126 ((List.replicate 126 (1 : ℝ)).length - 1)) 0) /
            (List.replicate 126 (1 : ℝ)).getD
              (i - min 126 ((List.replicate 126 (1 : ℝ)).length - 1)) 0)
        else none) ∧
    (∀ r ∈ engineCombined [("A", [((0 : ℕ), (1 : ℝ))])], r.1 ≠ "A") :=
  ⟨fallback_mode_score.1 (List.replicate 126 (1 : ℝ)) (by simp) (by simp)
      (by intro x hx; rw [List.eq_of_mem_replicate hx]; norm_num),
    fallback_mode_score.2 [("A", [((0 : ℕ), (1 : ℝ))])] ("A", [((0 : ℕ), (1 : ℝ))])
      (by simp) (by simp) (by simp)⟩

/-- Claim C7.  First, the momentum scorer never lets an arithmetic failure
escape: whenever the try-block body faults, the except handler turns the
score into NaN.  Second, the engine's symbol loop is compositional: the
outcome for the symbols around any given symbol is unaffected by it, so a
fault in one symbol's computation is contained there and the remaining
symbols are still processed.  Third, a symbol whose series computation
faulted contributes its price rows with NaN momentum to the combined
table (the left join finds no momentum frame for it). -/
theorem scoring_faults_contained :
    (∀ l : List ℝ, momentumBody l = Except.error () → momentum l = none) ∧
    (∀ (pre post : List (String × List ℝ)) (s : String × List ℝ),
      processSymbols (pre ++ s :: post) =
        processSymbols pre ++ processSymbols [s] ++ processSymbols post) ∧
    (∀ s : String × List (ℕ × ℝ),
      symbolSeries (s.2.map Prod.snd) = Except.error () →
      rowsForSymbol s = s.2.map fun q => (s.1, q.1, none)) := by
  refine ⟨?_, ?_, ?_⟩
  · intro l h
    by_cases hl : l.length < 252
    · simp [momentum, hl]
    · by_cases hσ : sigma126 l = 0
      · simp [momentum, hl, hσ]
      · simp [momentum, hl, hσ, h]
  · intro pre post s
    induction pre with
    | nil =>
      simp only [List.nil_append]
      cases hs : symbolSeries s.2 with
      | error e => simp [processSymbols, hs]
      | ok series => simp [processSymbols, hs]
    | cons p rest ih =>
      cases hp : symbolSeries p.2 with
      | error e => simp [processSymbols, hp, ih]
      | ok series => simp [processSymbols, hp, ih]
  · intro s h
    simp [rowsForSymbol, h]

/-- A 127-observation history whose first close is zero: its fallback
window at evaluation index 126 divides by that zero close, so the whole
symbol's series computation faults. -/
noncomputable def faultHist : List (ℕ × ℝ) :=
  ((0 : ℕ), (0 : ℝ)) :: (List.range 126).map fun d => (d + 1, (1 : ℝ))

theorem faultHist_closes : faultHist.map Prod.snd =
    (0 : ℝ) :: List.replicate 126 (1 : ℝ) := by
  simp [faultHist, List.map_map, Function.comp_def, List.map_const']

theorem faultHist_series_error :
    symbolSeries (faultHist.map Prod.snd) = Except.error () := by
  rw [faultHist_closes]
  have hlen : ((0 : ℝ) :: List.replicate 126 (1 : ℝ)).length = 127 := by simp
  have hn252 : ¬ (252 : ℕ) ≤ ((0 : ℝ) :: List.replicate 126 (1 : ℝ)).length := by
    rw [hlen]; omega
  have h126 : (126 : ℕ) ≤ ((0 : ℝ) :: List.replicate 126 (1 : ℝ)).length := by
    rw [hlen]; omega
  simp only [symbolSeries, hn252, if_false, h126, if_true, if_pos h126, ite_false, hlen]
  apply exceptMapList_error _ _ 126
  · simp
  · have hw : min 126 (127 - 1) = 126 := by norm_num
    rw [if_pos (by omega)]
    have hfb : fallbackAt ((0 : ℝ) :: List.replicate 126 (1 : ℝ))
        (min 126 (127 - 1)) 126 = Except.error () := by
      have hwin : (((0 : ℝ) :: List.replicate 126 (1 : ℝ)).drop
          (126 - min 126 (127 - 1))).take (min 126 (127 - 1) + 1) =
          (0 : ℝ) :: List.replicate 126 (1 : ℝ) := by
        rw [hw]
        simp
      simp only [fallbackAt, hwin]
      simp [zdiv]
    rw [hfb]
    rfl

/-- Applying scoring_faults_contained: a zero-close 252-window whose body
faults scores NaN, a three-symbol loop splits around its middle symbol,
and the faulting symbol faultHist still contributes all its dates with
NaN momentum. -/
theorem scoring_faults_contained_witness :
    momentum (List.replicate 252 (0 : ℝ)) = none ∧
    processSymbols ([("A", [(1 : ℝ)])] ++ ("B", [(2 : ℝ)]) :: [("C", [(3 : ℝ)])]) =
      processSymbols [("A", [(1 : ℝ)])] ++ processSymbols [("B", [(2 : ℝ)])] ++
        processSymbols [("C", [(3 : ℝ)])] ∧
    rowsForSymbol ("B", faultHist) = faultHist.map fun q => ("B", q.1, none) := by
  refine ⟨?_, ?_, ?_⟩
  · apply scoring_faults_contained.1
    have hfc : firstClose (List.replicate 252 (0 : ℝ)) = 0 := by
      simp [firstClose]
    have hz : zdiv (lastClose (List.replicate 252 (0 : ℝ)) -
          firstClose (List.replicate 252 (0 : ℝ)))
        (firstClose (List.replicate 252 (0 : ℝ))) = Except.error () := by
      rw [hfc, zdiv]
      simp
    simp only [momentumBody, hz]
    rfl
  · exact scoring_faults_contained.2.1 [("A", [(1 : ℝ)])] [("C", [(3 : ℝ)])] ("B", [(2 : ℝ)])
  · exact scoring_faults_contained.2.2 ("B", faultHist) faultHist_series_error

theorem getD_replicate_one (n i : ℕ) (h : i < n) :
    (List.replicate n (1 : ℝ)).getD i 0 = 1 := by
  rw [List.getD_eq_getElem?_getD, List.getElem?_replicate_of_lt h]
  rfl

theorem symbolSeries_replicate_one (n : ℕ) (h1 : 126 ≤ n) (h2 : n < 252) :
    symbolSeries (List.replicate n (1 : ℝ)) =
      Except.ok ((List.range n).map fun i =>
        if min 126 (n - 1) ≤ i then some 0 else none) := by
  have hlen : (List.replicate n (1 : ℝ)).length = n := by simp
  simp only [symbolSeries, hlen]
  rw [if_neg (by omega : ¬ 252 ≤ n), if_pos h1]
  apply exceptMapList_ok
  intro i hi
  have hilt : i < n := List.mem_range.mp hi
  by_cases hw : min 126 (n - 1) ≤ i
  · rw [if_pos hw, if_pos hw]
    have hw2 : min 126 ((List.replicate n (1 : ℝ)).length - 1) ≤ i := by
      rw [hlen]; exact hw
    have hfb := fallbackAt_ok (List.replicate n (1 : ℝ)) i hw2
      (by rw [hlen]; exact hilt)
      (fun x hx => by rw [List.eq_of_mem_replicate hx]; norm_num)
    rw [hlen] at hfb
    rw [hfb, getD_replicate_one n i hilt, getD_replicate_one n _ (by omega)]
    simp [Except.map]
  · rw [if_neg hw, if_neg hw]

theorem zip_range_map (l : List (ℕ × ℝ)) (g : ℕ → Option ℝ) :
    l.zip ((List.range l.length).map g) = l.enum.map fun p => (p.2, g p.1) := by
  rw [List.zip_map_right]
  have henum : l.enum = (List.range l.length).zip l := List.enum_eq_zip_range l
  rw [henum, ← List.zip_swap, List.map_map]
  apply List.map_congr_left
  intro p _
  simp [Prod.map]

theorem enumFrom_filter_ge {α : Type} (k : ℕ) :
    ∀ (l : List α) (j : ℕ),
      (List.enumFrom j l).filter (fun p => decide (k ≤ p.1)) =
        List.enumFrom (max j k) (l.drop (k - j))
  | [], j => by simp
  | x :: xs, j => by
    rw [List.enumFrom]
    by_cases hj : k ≤ j
    · rw [List.filter_cons_of_pos (by simpa using hj), enumFrom_filter_ge k xs (j + 1)]
      have h1 : max (j + 1) k = j + 1 := by omega
      have h2 : max j k = j := by omega
      have h3 : k - (j + 1) = 0 := by omega
      have h4 : k - j = 0 := by omega
      rw [h1, h2, h3, h4, List.drop_zero, List.drop_zero, List.enumFrom]
    · rw [List.filter_cons_of_neg (by simpa using hj), enumFrom_filter_ge k xs (j + 1)]
      have h1 : max (j + 1) k = max j k := by omega
      have h2 : k - j = (k - (j + 1)) + 1 := by omega
      rw [h1, h2, List.drop_succ_cons]

theorem rows_fallback_dates (sym : String) (hist : List (ℕ × ℝ))
    (h1 : 126 ≤ hist.length) (h2 : hist.length < 252)
    (hconst : hist.map Prod.snd = List.replicate hist.length (1 : ℝ)) :
    ((rowsForSymbol (sym, hist)).filter fun r => r.2.2.isSome).map (fun r => r.2.1) =
      (hist.drop (min 126 (hist.length - 1))).map Prod.fst := by
  have hs := symbolSeries_replicate_one hist.length h1 h2
  simp only [rowsForSymbol, hconst, hs]
  rw [zip_range_map, List.map_map]
  rw [List.filter_map]
  have hpred : ∀ p : ℕ × (ℕ × ℝ),
      ((fun r : String × ℕ × Option ℝ => r.2.2.isSome) ∘
        ((fun p : (ℕ × ℝ) × Option ℝ => (sym, p.1.1, p.2)) ∘
          fun p : ℕ × (ℕ × ℝ) => (p.2, if min 126 (hist.length - 1) ≤ p.1 then some 0 else none))) p =
      decide (min 126 (hist.length - 1) ≤ p.1) := by
    intro p
    by_cases hw : min 126 (hist.length - 1) ≤ p.1
    · simp [Function.comp, hw]
    · simp [Function.comp, hw]
  rw [List.filter_congr fun a _ => hpred a]
  have henum : hist.enum = List.enumFrom 0 hist := rfl
  rw [henum, enumFrom_filter_ge (min 126 (hist.length - 1)) hist 0]
  rw [List.map_map]
  have h0 : max 0 (min 126 (hist.length - 1)) = min 126 (hist.length - 1) := by omega
  have hsub : min 126 (hist.length - 1) - 0 = min 126 (hist.length - 1) := by omega
  rw [h0, hsub]
  have hcomp :
      ((fun r : String × ℕ × Option ℝ => r.2.1) ∘
        ((fun p : (ℕ × ℝ) × Option ℝ => (sym, p.1.1, p.2)) ∘
          fun p : ℕ × (ℕ × ℝ) => (p.2, if min 126 (hist.length - 1) ≤ p.1 then some 0 else none))) =
      Prod.fst ∘ (Prod.snd : ℕ × (ℕ × ℝ) → ℕ × ℝ) := by
    funext p
    rfl
  rw [hcomp, ← List.map_map, List.enumFrom_map_snd]

/-- Symbol A of the last_date counterexample: constant closes on trading
dates 0..126 and 200 (128 observations, fallback mode, defined momentum on
dates 126 and 200). -/
noncomputable def histA : List (ℕ × ℝ) :=
  ((List.range 127).map fun d => (d, (1 : ℝ))) ++ [(200, 1)]

/-- Symbol B of the last_date counterexample: constant closes on trading
dates 0..125, 150 and 200 (128 observations, fallback mode, defined
momentum on dates 150 and 200). -/
noncomputable def histB : List (ℕ × ℝ) :=
  ((List.range 126).map fun d => (d, (1 : ℝ))) ++ [(150, 1), (200, 1)]

/-- The counterexample universe for claim C3. -/
noncomputable def cexInput : List (String × List (ℕ × ℝ)) :=
  [("A", histA), ("B", histB)]

theorem histA_len : histA.length = 128 := by
  simp [histA]

theorem histB_len : histB.length = 128 := by
  simp [histB]

theorem histA_closes : histA.map Prod.snd = List.replicate 128 (1 : ℝ) := by
  have : histA.map Prod.snd = List.replicate 127 (1 : ℝ) ++ [1] := by
    simp [histA, List.map_map, Function.comp_def, List.map_const']
  rw [this, ← List.replicate_succ']

theorem histB_closes : histB.map Prod.snd = List.replicate 128 (1 : ℝ) := by
  have h1 : histB.map Prod.snd = List.replicate 126 (1 : ℝ) ++ [1, 1] := by
    simp [histB, List.map_map, Function.comp_def, List.map_const']
  have h2 : List.replicate 126 (1 : ℝ) ++ [1, 1] =
      (List.replicate 126 (1 : ℝ) ++ [1]) ++ [1] := by
    simp
  rw [h1, h2, ← List.replicate_succ', ← List.replicate_succ']

theorem histA_dates : (histA.drop 126).map Prod.fst = [126, 200] := by
  rw [List.map_drop]
  have : histA.map Prod.fst = List.range 127 ++ [200] := by
    simp [histA, List.map_map, Function.comp_def]
  rw [this]
  decide

theorem histB_dates : (histB.drop 126).map Prod.fst = [150, 200] := by
  rw [List.map_drop]
  have : histB.map Prod.fst = List.range 126 ++ [150, 200] := by
    simp [histB, List.map_map, Function.comp_def]
  rw [this]
  decide

theorem validDates_cex :
    validDatesOf (engineCombined cexInput) = [126, 200, 150] := by
  have hsort : cexInput.mergeSort (fun a b => a.1 ≤ b.1) = cexInput := by
    apply List.mergeSort_of_sorted
    refine List.pairwise_cons.mpr ⟨?_, ?_⟩
    · intro b hb
      rcases List.mem_singleton.mp hb with rfl
      simp only [decide_eq_true_eq]
      rw [String.le_iff_toList_le]
      decide
    · exact List.pairwise_singleton _ _
  have hfil : (cexInput.filter fun s => 126 ≤ s.2.length) = cexInput := by
    apply List.filter_eq_self.mpr
    intro a ha
    rcases List.mem_cons.mp ha with rfl | ha2
    · simp [histA_len]
    · rcases List.mem_singleton.mp ha2 with rfl
      simp [histB_len]
  have hflat : engineCombined cexInput =
      rowsForSymbol ("A", histA) ++ rowsForSymbol ("B", histB) := by
    rw [engineCombined, hsort, hfil]
    simp [cexInput]
  rw [hflat, validDatesOf, List.filter_append, List.map_append]
  have hA := rows_fallback_dates "A" histA (by rw [histA_len]; omega)
    (by rw [histA_len]; omega) (by rw [histA_closes, histA_len])
  have hB := rows_fallback_dates "B" histB (by rw [histB_len]; omega)
    (by rw [histB_len]; omega) (by rw [histB_closes, histB_len])
  rw [histA_len] at hA
  rw [histB_len] at hB
  have hw : min 126 (128 - 1) = 126 := by norm_num
  rw [hw] at hA hB
  rw [hA, hB, histA_dates, histB_dates]
  decide

/-- Claim C3, refuted on the code (the claim itself matches the source's
comment "Get the most recent date with valid momentum values").  The
engine's valid_dates are the first-appearance unique dates of the
(symbol, date)-sorted combined table, and last_date = valid_dates[-1];
on the two-symbol universe cexInput the defined-momentum dates appear in
order [126, 200, 150], so last_date is 150 while the maximum date with a
defined momentum observation is 200. -/
theorem engine_lastDate_not_max :
    validDatesOf (engineCombined cexInput) = [126, 200, 150] ∧
    lastDateOf (engineCombined cexInput) = some 150 ∧
    (validDatesOf (engineCombined cexInput)).maximum = some 200 ∧
    lastDateOf (engineCombined cexInput) ≠
      ((validDatesOf (engineCombined cexInput)).maximum : Option ℕ) := by
  refine ⟨validDates_cex, ?_, ?_, ?_⟩
  · rw [lastDateOf, validDates_cex]
    rfl
  · rw [validDates_cex]
    decide
  · rw [lastDateOf, validDates_cex]
    decide
